import Mathlib

/-!
Shallow embedding of the boundary-condition module (src/firedrake/bcs.py)
and the parameter-GUI module (src/firedrake/gui_config.py) of the
Firedrake excerpt, together with theorems settling the specification
claims about them.
-/

namespace Firedrake

/-- Python exception classes raised by the embedded code. -/
inductive PyErr where
  | runtime
  | value
  | type
  | notImpl
deriving DecidableEq

/-- The sub-domain identifier of a DirichletBC: the literal markers
"bottom" and "top" used for extruded meshes, or an integer boundary id. -/
inductive SubDom where
  | bottom
  | top
  | tag (t : Nat)
deriving DecidableEq

/-- The kinds of value a user can hand to DirichletBC as the boundary
value g: a Function on some space (identified by its space id and node
data), an Expression (identified by an id), a bare literal constant
(accepted by as_ufl), an iterable of literal constants (rejected by
as_ufl, accepted by expression.to_expression), or a value on which both
conversions fail. -/
inductive Gval where
  | func (s : Nat) (dat : List Int)
  | expr (e : Nat)
  | const (c : Int)
  | lst (cs : List Int)
  | junk
deriving DecidableEq

/-- g is an instance of expression.Expression. -/
def isExprB : Gval → Bool
  | .expr _ => true
  | _ => false

/-- g is a function.Function whose function_space() equals V. -/
def isFuncOnB : Gval → Nat → Bool
  | .func s _, V => s == V
  | _, _ => false

/-- as_ufl(g) succeeds (UFL accepts Functions, Expressions and bare
constants; it raises UFLException on iterables and arbitrary junk). -/
def asUflOkB : Gval → Bool
  | .func _ _ => true
  | .expr _ => true
  | .const _ => true
  | .lst _ => false
  | .junk => false

/-- expression.to_expression(g) succeeds (on an iterable of literal
constants). -/
def toExprOkB : Gval → Bool
  | .lst _ => true
  | _ => false

/-- The exterior facet boundary node map of a function space:
a row of node indices per exterior facet (values_with_halo) and the
per-column layer offset used on extruded meshes. -/
structure NodeMapData where
  values_with_halo : List (List Nat)
  offset : List Nat

/-- The attributes of a FunctionSpace consulted by bcs.py, keyed by the
space id in a World: extrusion flag, bottom_nodes()/top_nodes() results,
the exterior facet boundary node map, the facet index sets
mesh.exterior_facets.subset(id).indices of the mesh and (for extruded
meshes) of mesh._old_mesh, the number of mesh layers, the optional
_parent space and index of an indexed subspace, and whether the space
supports pointwise evaluation (interpolate succeeds rather than raising
NotImplementedError). -/
structure SpaceData where
  extruded : Bool
  bottom_list : List Nat
  top_list : List Nat
  ext_map : NodeMapData
  facet_subset : Nat → List Nat
  old_facet_subset : Nat → List Nat
  layers : Nat
  parent : Option Nat
  index : Option Nat
  pointEval : Bool

/-- The ambient collaborators of bcs.py: the function spaces, and the
results of interpolating or projecting an Expression (or an Expression
built from a list of constants) onto a space. -/
structure World where
  sp : Nat → SpaceData
  exprInterp : Nat → Nat → List Int
  exprProj : Nat → Nat → List Int
  lstInterp : List Int → Nat → List Int
  lstProj : List Int → Nat → List Int

/-- np.unique: the sorted duplicate-free list of the entries. -/
def npUnique (l : List Nat) : List Nat := l.toFinset.sort (· ≤ ·)

/-- Row ix of the exterior facet boundary node map
(values_with_halo.take([ix], axis=0)). -/
def rowOf (fs : SpaceData) (ix : Nat) : List Nat :=
  fs.ext_map.values_with_halo.getD ix []

/-- base_maps + i * facet_offset : one row shifted by i layers. -/
def shiftRow (row off : List Nat) (i : Nat) : List Nat :=
  List.zipWith (fun a b => a + i * b) row off

/-- DirichletBC.nodes: the list of nodes at which the boundary condition
applies (bcs.py lines 101-121). -/
def bcNodes (w : World) (V : Nat) (sd : SubDom) : List Nat :=
  let fs := w.sp V
  match sd with
  | .bottom => fs.bottom_list
  | .top => fs.top_list
  | .tag t =>
    if fs.extruded then
      npUnique (((List.range (fs.layers - 1)).map (fun i =>
        ((fs.old_facet_subset t).map
          (fun ix => shiftRow (rowOf fs ix) fs.ext_map.offset i)))).flatten.flatten)
    else
      npUnique (((fs.facet_subset t).map (fun ix => rowOf fs ix)).flatten)

/-- The state of a DirichletBC object: the function space id, the stored
boundary value, the original value recorded at instantiation or by
set_value, the sub-domain identifier, and the homogenisation flag. -/
structure DirichletBC where
  function_space : Nat
  function_arg : Gval
  original_arg : Gval
  sub_domain : SubDom
  currently_zeroed : Bool
deriving DecidableEq

/-- The body of the function_arg property setter (bcs.py lines 46-67):
an incompatible Function raises RuntimeError; a non-Expression is tried
with as_ufl (result discarded) and, failing that, converted with
to_expression or rejected with ValueError; an Expression (original or
converted) is interpolated onto the space, falling back to projection
when the space does not support pointwise evaluation. Returns the value
assigned to the private attribute, or the exception raised. -/
def setArg (w : World) (V : Nat) (g : Gval) : Except PyErr Gval :=
  match g with
  | .func s dat => if s = V then .ok (.func s dat) else .error .runtime
  | .expr e =>
      .ok (if (w.sp V).pointEval then .func V (w.exprInterp e V)
           else .func V (w.exprProj e V))
  | .const c => .ok (.const c)
  | .lst cs =>
      .ok (if (w.sp V).pointEval then .func V (w.lstInterp cs V)
           else .func V (w.lstProj cs V))
  | .junk => .error .value

/-- DirichletBC.__init__ (bcs.py lines 34-39): run the function_arg
setter, record the result also as the original argument, store the
sub-domain and clear the homogenisation flag. An exception from the
setter aborts construction. -/
def mkBC (w : World) (V : Nat) (g : Gval) (sd : SubDom) :
    Except PyErr DirichletBC :=
  match setArg w V g with
  | .error e => .error e
  | .ok s => .ok ⟨V, s, s, sd, false⟩

/-- The function_arg property setter applied to an existing object: on
an exception the object is unchanged; on success the stored value is
replaced and the homogenisation flag cleared. -/
def setFA (w : World) (bc : DirichletBC) (g : Gval) :
    Option PyErr × DirichletBC :=
  match setArg w bc.function_space g with
  | .error e => (some e, bc)
  | .ok s => (none, { bc with function_arg := s, currently_zeroed := false })

/-- DirichletBC.set_value (bcs.py lines 92-99): run the setter, then
record the stored value as the new original argument. -/
def set_value (w : World) (bc : DirichletBC) (v : Gval) :
    Option PyErr × DirichletBC :=
  match setArg w bc.function_space v with
  | .error e => (some e, bc)
  | .ok s => (none, { bc with function_arg := s, original_arg := s,
                              currently_zeroed := false })

/-- DirichletBC.homogenize (bcs.py lines 76-83): assign 0 through the
function_arg setter, then set the homogenisation flag. -/
def homogenize (w : World) (bc : DirichletBC) : Option PyErr × DirichletBC :=
  match setArg w bc.function_space (.const 0) with
  | .error e => (some e, bc)
  | .ok s => (none, { bc with function_arg := s, currently_zeroed := true })

/-- DirichletBC.restore (bcs.py lines 85-90): write the original
argument straight to the private attribute and clear the flag. -/
def restore (bc : DirichletBC) : DirichletBC :=
  { bc with function_arg := bc.original_arg, currently_zeroed := false }

/-- A firedrake Function as seen by DirichletBC.apply: its function
space id and its node data, one array per component (a one-component
list for a function on a plain space; one array per subspace for a
function on a mixed space). -/
structure PyFunction where
  space : Nat
  dat : List (List Int)
deriving DecidableEq

/-- Pointwise evaluation of the stored boundary value at node n: a bare
constant applies at every node, a Function supplies its node datum. -/
def bcValAt (g : Gval) (n : Nat) : Int :=
  match g with
  | .const c => c
  | .func _ d => d.getD n 0
  | _ => 0

/-- pyop2 assign over a subset: entry n is overwritten with f n when n
lies in the subset and kept otherwise (st is the index of the first
entry of the remaining list). -/
def assignSubset (f : Nat → Int) (ns : List Nat) : List Int → Nat → List Int
  | [], _ => []
  | v :: rest, n => (if n ∈ ns then f n else v) :: assignSubset f ns rest (n + 1)

/-- The component of the data a bc with this space acts on: the indexed
subspace position, component 0 for a plain space. -/
def bcComp (w : World) (bc : DirichletBC) : Nat :=
  ((w.sp bc.function_space).index).getD 0

/-- DirichletBC.node_set, as the underlying list of node indices. -/
def bcNodeSet (w : World) (bc : DirichletBC) : List Nat :=
  bcNodes w bc.function_space bc.sub_domain

/-- DirichletBC.apply restricted to Function arguments (bcs.py lines
154-170): an r on an incompatible space (neither the bc space nor its
parent) raises RuntimeError leaving r unchanged; otherwise the acted-on
component of r is overwritten at the boundary nodes with the boundary
value, or with u - boundary value when a current state u is supplied. -/
def applyBC (w : World) (bc : DirichletBC) (r : PyFunction)
    (u : Option PyFunction) : Option PyErr × PyFunction :=
  if bc.function_space = r.space ∨
      (w.sp bc.function_space).parent = some r.space then
    let j := bcComp w bc
    let ns := bcNodeSet w bc
    let old := r.dat.getD j []
    let newArr := match u with
      | some uf =>
          assignSubset
            (fun n => (uf.dat.getD j []).getD n 0 - bcValAt bc.function_arg n)
            ns old 0
      | none => assignSubset (fun n => bcValAt bc.function_arg n) ns old 0
    (none, { r with dat := r.dat.set j newArr })
  else (some .runtime, r)

/-- DirichletBC.zero on a Function (bcs.py lines 172-188): record the
homogenisation flag, homogenize, apply, and restore only when the bc was
not already homogenized on entry; an exception from apply propagates
before the restore. -/
def zeroBC (w : World) (bc : DirichletBC) (r : PyFunction) :
    Option PyErr × DirichletBC × PyFunction :=
  let cz := bc.currently_zeroed
  match homogenize w bc with
  | (some e, bc1) => (some e, bc1, r)
  | (none, bc1) =>
    match applyBC w bc1 r none with
    | (some e, r1) => (some e, bc1, r1)
    | (none, r1) => if cz then (none, bc1, r1) else (none, restore bc1, r1)

/-- A JSON value as produced by json.loads / consumed by json.dumps;
strings carry a flag recording whether they are Python 2 unicode objects
(json.loads yields unicode strings). -/
inductive JVal where
  | num (n : Int)
  | bool (b : Bool)
  | str (s : String) (uni : Bool)
  | obj (kvs : List (String × JVal))
  | arr (xs : List JVal)
  | null

/-- A value stored in a Parameters dictionary: a number, boolean or
string, a nested Parameters, or a raw non-Parameters Python object that
load_from_dict may have assigned (a plain dict, list or None from
JSON). -/
inductive PVal where
  | num (n : Int)
  | bool (b : Bool)
  | str (s : String)
  | sub (kvs : List (String × PVal))
  | raw (j : JVal)

/-- A Parameters object is a dictionary from string keys to values. -/
abbrev Params := List (String × PVal)

/-- The outcome of a load_from_dict call: the (in-place mutated)
parameters, the warnings printed, and the exception raised if any. -/
structure LoadRes where
  params : Params
  warns : List String
  err : Option PyErr

/-- s.encode, dropping every non-ASCII character. -/
def encodeAscii (s : String) : String :=
  ⟨s.data.filter (fun c => c.toNat < 128)⟩

/-- Every character of s is ASCII. -/
def asciiStr (s : String) : Bool := s.data.all (fun c => c.toNat < 128)

/-- The warning printed for a dictionary key absent from parameters. -/
def warnMsg (k : String) : String :=
  "WARNING: " ++ k ++ " is not in the parameters and ignored"

/-- Dictionary lookup parameters[k] (None when the key is absent). -/
def getKey : Params → String → Option PVal
  | [], _ => none
  | (k0, v0) :: rest, k => if k0 = k then some v0 else getKey rest k

/-- Dictionary assignment parameters[k] = v on a present key: the first
binding of k is overwritten. -/
def setKey : Params → String → PVal → Params
  | [], _, _ => []
  | (k0, v0) :: rest, k, v =>
    if k0 = k then (k0, v) :: rest else (k0, v0) :: setKey rest k v

/-- The value load_from_dict assigns for dictionary[k] when
parameters[k] is not a Parameters: a unicode string is re-encoded to
ASCII, any other JSON value is assigned as the raw Python object it
deserialised to. -/
def jToP : JVal → PVal
  | .num n => .num n
  | .bool b => .bool b
  | .str s true => .str (encodeAscii s)
  | .str s false => .str s
  | .obj kvs => .raw (.obj kvs)
  | .arr xs => .raw (.arr xs)
  | .null => .raw .null

/-- The for-loop of load_from_dict when the dictionary argument is a
string: iteration yields its characters; a character that is a key of
parameters leads to string indexing dictionary[k], a TypeError; an
absent character is warned about and skipped. -/
def loadChars (p : Params) : List Char → LoadRes
  | [] => ⟨p, [], none⟩
  | c :: rest =>
    if (getKey p (String.singleton c)).isSome then ⟨p, [], some PyErr.type⟩
    else
      let r := loadChars p rest
      ⟨r.params, warnMsg (String.singleton c) :: r.warns, r.err⟩

/-- The for-loop of load_from_dict when the dictionary argument is a
list: an unhashable element (dict or list) raises TypeError inside the
membership test; a string element present among the keys raises
TypeError on list indexing; any other element is absent from the
string-keyed parameters and the warning string concatenation
"WARNING: " + k raises TypeError unless the element is a string. -/
def loadElems (p : Params) : List JVal → LoadRes
  | [] => ⟨p, [], none⟩
  | x :: rest =>
    match x with
    | .str s _ =>
      if (getKey p s).isSome then ⟨p, [], some PyErr.type⟩
      else
        let r := loadElems p rest
        ⟨r.params, warnMsg s :: r.warns, r.err⟩
    | _ => ⟨p, [], some PyErr.type⟩

mutual

/-- load_from_dict(parameters, dictionary) (gui_config.py lines 62-76):
iterate over the dictionary; keys present in parameters have their
values overwritten (recursively when the present value is a nested
Parameters), absent keys are warned about and ignored; iterating a
non-iterable dictionary raises TypeError. -/
def loadVal (p : Params) : JVal → LoadRes
  | .obj kvs => loadPairs p kvs
  | .str s _ => loadChars p s.data
  | .arr xs => loadElems p xs
  | .num _ => ⟨p, [], some PyErr.type⟩
  | .bool _ => ⟨p, [], some PyErr.type⟩
  | .null => ⟨p, [], some PyErr.type⟩

/-- The for-loop of load_from_dict over the key-value pairs of a
dictionary: an absent key is warned about and skipped; a key whose
present value is a nested Parameters is recursed into, the partial
in-place mutation surviving an exception that then propagates; any
other present key is assigned the converted dictionary value. -/
def loadPairs (p : Params) : List (String × JVal) → LoadRes
  | [] => ⟨p, [], none⟩
  | (k, v) :: rest =>
    match getKey p k with
    | none =>
      let r := loadPairs p rest
      ⟨r.params, warnMsg k :: r.warns, r.err⟩
    | some (PVal.sub skvs) =>
      let r1 := loadVal skvs v
      let p1 := setKey p k (PVal.sub r1.params)
      match r1.err with
      | some e => ⟨p1, r1.warns, some e⟩
      | none =>
        let r2 := loadPairs p1 rest
        ⟨r2.params, r1.warns ++ r2.warns, r2.err⟩
    | some _ =>
      let r2 := loadPairs (setKey p k (jToP v)) rest
      ⟨r2.params, r2.warns, r2.err⟩

end

mutual

/-- json.dumps of one Parameters value: numbers, booleans and strings
serialise to themselves, a nested Parameters (a dict subclass) to a
JSON object, a raw JSON payload to itself. -/
def dumpsV : PVal → JVal
  | .num n => .num n
  | .bool b => .bool b
  | .str s => .str s false
  | .sub kvs => .obj (dumpsL kvs)
  | .raw j => j

/-- json.dumps of a Parameters dictionary, pairwise. -/
def dumpsL : Params → List (String × JVal)
  | [] => []
  | (k, v) :: rest => (k, dumpsV v) :: dumpsL rest

end

mutual

/-- json.loads of serialised JSON text yields unicode strings: mark
every string of the tree as unicode. -/
def markUni : JVal → JVal
  | .str s _ => .str s true
  | .obj kvs => .obj (markUniL kvs)
  | .arr xs => .arr (markUniA xs)
  | .num n => .num n
  | .bool b => .bool b
  | .null => .null

/-- markUni over the pairs of an object. -/
def markUniL : List (String × JVal) → List (String × JVal)
  | [] => []
  | (k, v) :: rest => (k, markUni v) :: markUniL rest

/-- markUni over the elements of an array. -/
def markUniA : List JVal → List JVal
  | [] => []
  | x :: rest => markUni x :: markUniA rest

end

/-- export_params_to_json (gui_config.py lines 44-49): the file receives
json.dumps(parameters). -/
def export_params_to_json (p : Params) : JVal := JVal.obj (dumpsL p)

/-- import_params_from_json (gui_config.py lines 52-59): json.loads the
file content (yielding unicode strings), run load_from_dict on it, and
return the parameters object. -/
def import_params_from_json (p : Params) (file : JVal) : LoadRes :=
  loadVal p (markUni file)

mutual

/-- A Parameters value is JSON-representable in the sense of claim C7:
a number, a boolean, an ASCII string, or a nested well-formed
Parameters. -/
def goodV : PVal → Bool
  | .num _ => true
  | .bool _ => true
  | .str s => asciiStr s
  | .sub kvs => goodL kvs
  | .raw _ => false

/-- A well-formed Parameters dictionary: ASCII keys without duplicates,
JSON-representable values. -/
def goodL : Params → Bool
  | [] => true
  | (k, v) :: rest =>
    asciiStr k && goodV v && (getKey rest k).isNone && goodL rest

end

mutual

/-- The key skeleton of a Parameters value: every scalar collapses to a
fixed leaf, a nested Parameters keeps its keys. Two parameters with the
same skeleton have the same key set at every nesting level. -/
def eraseV : PVal → PVal
  | .sub kvs => .sub (eraseL kvs)
  | _ => .num 0

/-- The key skeleton of a Parameters dictionary. -/
def eraseL : Params → Params
  | [] => []
  | (k, v) :: rest => (k, eraseV v) :: eraseL rest

end

/-- The argument handed to show_config_gui: a Parameters instance or
some other Python object. -/
inductive GuiInput where
  | params (p : Params)
  | other (x : Nat)

/-- The observable effects of show_config_gui, in order: widget
construction, grid placement, grid configuration and the main loop. -/
inductive GuiEffect where
  | tk
  | frame
  | grid
  | colconfig
  | rowconfig
  | button (label : String)
  | mainloop
deriving DecidableEq

/-- show_config_gui (gui_config.py lines 11-41): a non-Parameters
argument raises TypeError before any widget is built; a Parameters
argument builds the root window, the frame, the two buttons and enters
the main loop. -/
def show_config_gui : GuiInput → Option PyErr × List GuiEffect
  | .other _ => (some PyErr.type, [])
  | .params _ =>
    (none, [.tk, .frame, .grid, .colconfig, .rowconfig,
            .button "Load from File", .grid,
            .button "Save to File", .grid, .mainloop])

/-- A small concrete world used to instantiate theorems with
hypotheses: one non-extruded function space with pointwise evaluation,
two bottom nodes, two top nodes, and a two-facet boundary map. -/
def wTest : World where
  sp := fun _ =>
    { extruded := false
      bottom_list := [0, 1]
      top_list := [2, 3]
      ext_map := ⟨[[0, 1], [1, 2]], [1, 1]⟩
      facet_subset := fun t => if t = 1 then [0, 1] else []
      old_facet_subset := fun _ => []
      layers := 1
      parent := none
      index := none
      pointEval := true }
  exprInterp := fun _ _ => [5, 5]
  exprProj := fun _ _ => [6, 6]
  lstInterp := fun cs _ => cs
  lstProj := fun cs _ => cs

/-- The DirichletBC produced by constructing with the bare constant 5 on
space 0 in wTest. -/
def bcConst5 : DirichletBC :=
  ⟨0, Gval.const 5, Gval.const 5, SubDom.bottom, false⟩

/-- Claim C1 (counterexample): constructing a DirichletBC with the bare
literal constant 5 stores the constant itself as function_arg, not a
Function on the space: as_ufl only checks convertibility and its result
is discarded, so no field on V is built. -/
theorem bc_const_arg_not_a_function :
    mkBC wTest 0 (Gval.const 5) SubDom.bottom = Except.ok bcConst5 ∧
    isFuncOnB bcConst5.function_arg 0 = false :=
  ⟨rfl, rfl⟩

/-- Claim C1 (amended): after construction or set_value with an
admissible boundary value g, the stored function_arg is a Function on
the space V whenever g was an Expression, an iterable of literal
constants, or a Function on V; a bare literal constant is stored
unchanged as the constant itself. -/
theorem setArg_shape (w : World) (V : Nat) (g : Gval) (s : Gval)
    (h : setArg w V g = Except.ok s) :
    isFuncOnB s V = true ∨ ∃ c, g = Gval.const c ∧ s = Gval.const c := by
  cases g with
  | func s2 dat =>
    left
    simp only [setArg] at h
    split at h
    · cases h; simp_all [isFuncOnB]
    · cases h
  | expr e =>
    left
    simp only [setArg] at h
    cases h
    by_cases hp : (w.sp V).pointEval <;> simp [isFuncOnB, hp]
  | const c =>
    right
    simp only [setArg] at h
    cases h
    exact ⟨c, rfl, rfl⟩
  | lst cs =>
    left
    simp only [setArg] at h
    cases h
    by_cases hp : (w.sp V).pointEval <;> simp [isFuncOnB, hp]
  | junk => simp [setArg] at h

theorem bc_value_normalization (w : World) (V : Nat) (g : Gval) (sd : SubDom) :
    (∀ bc, mkBC w V g sd = Except.ok bc →
      isFuncOnB bc.function_arg V = true ∨
        ∃ c, g = Gval.const c ∧ bc.function_arg = Gval.const c) ∧
    (∀ bc bc2, bc.function_space = V → set_value w bc g = (none, bc2) →
      isFuncOnB bc2.function_arg V = true ∨
        ∃ c, g = Gval.const c ∧ bc2.function_arg = Gval.const c) := by
  constructor
  · intro bc h
    simp only [mkBC] at h
    cases hs : setArg w V g with
    | error e => rw [hs] at h; cases h
    | ok s =>
      rw [hs] at h
      cases h
      exact setArg_shape w V g s hs
  · intro bc bc2 hV h
    simp only [set_value] at h
    cases hs : setArg w bc.function_space g with
    | error e => rw [hs] at h; cases h
    | ok s =>
      rw [hs] at h
      cases h
      rw [hV] at hs
      exact setArg_shape w V g s hs

/-- Claim C1 (witness): the amended normalization at concrete inputs: a
list of constants becomes a Function on the space both at construction
and through set_value. -/
theorem bc_value_normalization_witness :
    (isFuncOnB (Gval.func 0 [1, 2]) 0 = true ∨
      ∃ c, Gval.lst [1, 2] = Gval.const c ∧
        Gval.func 0 [1, 2] = Gval.const c) ∧
    (isFuncOnB (Gval.func 0 [1, 2]) 0 = true ∨
      ∃ c, Gval.lst [1, 2] = Gval.const c ∧
        Gval.func 0 [1, 2] = Gval.const c) :=
  ⟨(bc_value_normalization wTest 0 (Gval.lst [1, 2]) SubDom.bottom).1
      ⟨0, Gval.func 0 [1, 2], Gval.func 0 [1, 2], SubDom.bottom, false⟩ rfl,
   (bc_value_normalization wTest 0 (Gval.lst [1, 2]) SubDom.bottom).2
      bcConst5
      ⟨0, Gval.func 0 [1, 2], Gval.func 0 [1, 2], SubDom.bottom, false⟩
      rfl rfl⟩

/-- Claim C2: for a freshly constructed DirichletBC, homogenize sets the
boundary value to zero, and the homogenize-then-restore round trip is
the identity on the object, hence repeatable any number of times. -/
theorem homogenize_restore_roundtrip (w : World) (V : Nat) (g : Gval)
    (sd : SubDom) (bc : DirichletBC) (h : mkBC w V g sd = Except.ok bc) :
    (homogenize w bc).2.function_arg = Gval.const 0 ∧
    ∀ n : Nat, (fun b => restore (homogenize w b).2)^[n] bc = bc := by
  simp only [mkBC] at h
  cases hs : setArg w V g with
  | error e => rw [hs] at h; cases h
  | ok s =>
    rw [hs] at h
    cases h
    have hfix : restore (homogenize w (⟨V, s, s, sd, false⟩ : DirichletBC)).2 =
        (⟨V, s, s, sd, false⟩ : DirichletBC) := by
      simp [homogenize, setArg, restore]
    refine ⟨by simp [homogenize, setArg], fun n => ?_⟩
    exact @Function.iterate_fixed _ (fun b => restore (homogenize w b).2)
      ⟨V, s, s, sd, false⟩ hfix n

/-- Claim C2 (witness): the round trip at a concrete bc constructed with
the constant 7, iterated twice. -/
theorem homogenize_restore_roundtrip_witness :
    (homogenize wTest
        (⟨0, Gval.const 7, Gval.const 7, SubDom.bottom, false⟩ :
          DirichletBC)).2.function_arg = Gval.const 0 ∧
    (fun b => restore (homogenize wTest b).2)^[2]
        (⟨0, Gval.const 7, Gval.const 7, SubDom.bottom, false⟩ : DirichletBC) =
      ⟨0, Gval.const 7, Gval.const 7, SubDom.bottom, false⟩ :=
  ⟨(homogenize_restore_roundtrip wTest 0 (Gval.const 7) SubDom.bottom _ rfl).1,
   (homogenize_restore_roundtrip wTest 0 (Gval.const 7) SubDom.bottom _ rfl).2 2⟩

/-- Claim C3: a Function on an incompatible space is rejected with
RuntimeError at construction, by the function_arg setter and by
set_value, each leaving the object unchanged; apply on a Function whose
space is neither the bc space nor its parent raises RuntimeError and
leaves the Function unchanged. -/
theorem bc_incompatible_space_errors (w : World) :
    (∀ V s dat sd, s ≠ V →
       mkBC w V (Gval.func s dat) sd = Except.error PyErr.runtime) ∧
    (∀ bc s dat, s ≠ bc.function_space →
       setFA w bc (Gval.func s dat) = (some PyErr.runtime, bc) ∧
       set_value w bc (Gval.func s dat) = (some PyErr.runtime, bc)) ∧
    (∀ bc r u, ¬(bc.function_space = r.space ∨
        (w.sp bc.function_space).parent = some r.space) →
       applyBC w bc r u = (some PyErr.runtime, r)) := by
  refine ⟨fun V s dat sd h => ?_, fun bc s dat h => ?_, fun bc r u h => ?_⟩
  · simp [mkBC, setArg, h]
  · constructor <;> simp [setFA, set_value, setArg, h]
  · simp [applyBC, h]

/-- Claim C3 (witness): the three rejections at concrete inputs in
wTest. -/
theorem bc_incompatible_space_errors_witness :
    mkBC wTest 0 (Gval.func 1 [3]) SubDom.bottom =
      Except.error PyErr.runtime ∧
    setFA wTest bcConst5 (Gval.func 1 [3]) = (some PyErr.runtime, bcConst5) ∧
    applyBC wTest bcConst5 ⟨3, [[1]]⟩ none =
      (some PyErr.runtime, (⟨3, [[1]]⟩ : PyFunction)) :=
  ⟨(bc_incompatible_space_errors wTest).1 0 1 [3] SubDom.bottom (by decide),
   ((bc_incompatible_space_errors wTest).2.1 bcConst5 1 [3] (by decide)).1,
   (bc_incompatible_space_errors wTest).2.2 bcConst5 ⟨3, [[1]]⟩ none
     (by decide)⟩

/-- Claim C4 (counterexample): a Function on an incompatible space does
not satisfy the claimed ValueError condition (as_ufl accepts it), so the
claim as stated promises it is accepted without error, yet the setter
rejects it with RuntimeError. -/
theorem bc_other_value_not_accepted :
    isExprB (Gval.func 1 [0]) = false ∧
    isFuncOnB (Gval.func 1 [0]) 0 = false ∧
    asUflOkB (Gval.func 1 [0]) = true ∧
    (setFA wTest bcConst5 (Gval.func 1 [0])).1 = some PyErr.runtime :=
  ⟨rfl, rfl, rfl, rfl⟩

/-- Claim C4 (amended): assigning a boundary value g raises ValueError
exactly when g is not an Expression, not a Function on the space, not
accepted by as_ufl and not convertible by to_expression; no other value
raises ValueError, though a Function on an incompatible space is
rejected with RuntimeError instead. -/
theorem bc_valueerror_iff (w : World) (bc : DirichletBC) (g : Gval) :
    (setFA w bc g).1 = some PyErr.value ↔
      (isExprB g = false ∧ isFuncOnB g bc.function_space = false ∧
       asUflOkB g = false ∧ toExprOkB g = false) := by
  cases g with
  | func s dat =>
    by_cases h : s = bc.function_space <;>
      simp [setFA, setArg, isExprB, isFuncOnB, asUflOkB, toExprOkB, h]
  | expr e => simp [setFA, setArg, isExprB, isFuncOnB, asUflOkB, toExprOkB]
  | const c => simp [setFA, setArg, isExprB, isFuncOnB, asUflOkB, toExprOkB]
  | lst cs => simp [setFA, setArg, isExprB, isFuncOnB, asUflOkB, toExprOkB]
  | junk => simp [setFA, setArg, isExprB, isFuncOnB, asUflOkB, toExprOkB]

/-- Claim C5: show_config_gui raises TypeError on every non-Parameters
argument before performing any GUI effect, and raises no TypeError on a
Parameters argument. -/
theorem gui_typeerror_guard :
    (∀ x, show_config_gui (GuiInput.other x) = (some PyErr.type, [])) ∧
    (∀ p, (show_config_gui (GuiInput.params p)).1 = none) :=
  ⟨fun _ => rfl, fun _ => rfl⟩

theorem mem_npUnique (a : Nat) (l : List Nat) : a ∈ npUnique l ↔ a ∈ l := by
  simp [npUnique, Finset.mem_sort, List.mem_toFinset]

theorem npUnique_nodup (l : List Nat) : (npUnique l).Nodup :=
  Finset.sort_nodup _ _

/-- Claim C6: the node set of a DirichletBC is its space's bottom nodes
for the marker "bottom", its top nodes for "top", and otherwise the
duplicate-free set of the entries of the exterior facet boundary node
map over the facets with the given integer id — shifted by every
multiple of the facet offset below the layer count when the mesh is
extruded. -/
theorem bc_nodes_characterization (w : World) (V : Nat) :
    bcNodes w V SubDom.bottom = (w.sp V).bottom_list ∧
    bcNodes w V SubDom.top = (w.sp V).top_list ∧
    ∀ t, (bcNodes w V (SubDom.tag t)).Nodup ∧
      ∀ n, n ∈ bcNodes w V (SubDom.tag t) ↔
        (if (w.sp V).extruded then
           ∃ i < (w.sp V).layers - 1, ∃ ix ∈ (w.sp V).old_facet_subset t,
             n ∈ shiftRow (rowOf (w.sp V) ix) (w.sp V).ext_map.offset i
         else ∃ ix ∈ (w.sp V).facet_subset t, n ∈ rowOf (w.sp V) ix) := by
  refine ⟨rfl, rfl, fun t => ⟨?_, fun n => ?_⟩⟩
  · by_cases h : (w.sp V).extruded <;> simp [bcNodes, h, npUnique_nodup]
  · by_cases h : (w.sp V).extruded <;>
      simp [bcNodes, h, mem_npUnique, List.mem_flatten, List.mem_map,
        List.mem_range]

theorem assignSubset_getElem? (f : Nat → Int) (ns : List Nat) :
    ∀ (l : List Int) (st n : Nat) (v : Int), l[n]? = some v →
      (assignSubset f ns l st)[n]? =
        some (if (st + n) ∈ ns then f (st + n) else v) := by
  intro l
  induction l with
  | nil => intro st n v h; simp at h
  | cons x rest ih =>
    intro st n v h
    cases n with
    | zero =>
      simp only [List.getElem?_cons_zero, Option.some.injEq] at h
      subst h
      simp [assignSubset]
    | succ m =>
      simp only [List.getElem?_cons_succ] at h
      simp only [assignSubset, List.getElem?_cons_succ]
      have e : st + 1 + m = st + (m + 1) := by omega
      rw [ih (st + 1) m v h, e]

/-- Claim C8: apply on a compatible Function raises nothing, leaves the
components other than the one the bc acts on untouched, leaves every
entry outside the boundary node set at its previous value, and sets
every entry in the node set to the boundary value — or to the current
state minus the boundary value when a state u is supplied. -/
theorem apply_frame (w : World) (bc : DirichletBC) (r : PyFunction)
    (u : Option PyFunction)
    (hc : bc.function_space = r.space ∨
          (w.sp bc.function_space).parent = some r.space) :
    (applyBC w bc r u).1 = none ∧
    (∀ j2, j2 ≠ bcComp w bc →
       ((applyBC w bc r u).2.dat)[j2]? = r.dat[j2]?) ∧
    (∀ n v, (r.dat.getD (bcComp w bc) [])[n]? = some v →
       (((applyBC w bc r u).2.dat).getD (bcComp w bc) [])[n]? =
         some (if n ∈ bcNodeSet w bc then
                 (match u with
                  | some uf => (uf.dat.getD (bcComp w bc) []).getD n 0
                                - bcValAt bc.function_arg n
                  | none => bcValAt bc.function_arg n)
               else v)) := by
  simp only [applyBC, if_pos hc]
  refine ⟨trivial, fun j2 hj => ?_, fun n v hv => ?_⟩
  · exact List.getElem?_set_ne (Ne.symm hj)
  · by_cases hlen : bcComp w bc < r.dat.length
    · rw [List.getD_eq_getElem?_getD, List.getElem?_set_self hlen]
      simp only [Option.getD_some]
      have := assignSubset_getElem?
        (match u with
         | some uf => fun m => (uf.dat.getD (bcComp w bc) []).getD m 0
                       - bcValAt bc.function_arg m
         | none => fun m => bcValAt bc.function_arg m)
        (bcNodeSet w bc) (r.dat.getD (bcComp w bc) []) 0 n v hv
      simp only [Nat.zero_add] at this
      cases u <;> simpa using this
    · rw [List.set_eq_of_length_le (by omega)]
      have hnil : r.dat.getD (bcComp w bc) [] = [] := by
        rw [List.getD_eq_getElem?_getD, List.getElem?_eq_none (by omega)]
        rfl
      rw [hnil] at hv
      simp at hv

/-- A bc with the constant 9 on space 0 of wTest, bottom marker. -/
def bcW8 : DirichletBC :=
  ⟨0, Gval.const 9, Gval.const 9, SubDom.bottom, false⟩

/-- A three-node Function on space 0 of wTest. -/
def rW8 : PyFunction := ⟨0, [[4, 5, 6]]⟩

/-- Claim C8 (witness): the frame property of apply at a concrete bc and
Function, inspected at the untouched component 1, and at node 2 of the
acted-on component. -/
theorem apply_frame_witness :
    (applyBC wTest bcW8 rW8 none).1 = none ∧
    ((applyBC wTest bcW8 rW8 none).2.dat)[1]? = rW8.dat[1]? ∧
    (((applyBC wTest bcW8 rW8 none).2.dat).getD 0 [])[2]? =
      some (if 2 ∈ bcNodeSet wTest bcW8 then bcValAt bcW8.function_arg 2
            else 6) :=
  ⟨(apply_frame wTest bcW8 rW8 none (Or.inl rfl)).1,
   (apply_frame wTest bcW8 rW8 none (Or.inl rfl)).2.1 1 (by decide),
   (apply_frame wTest bcW8 rW8 none (Or.inl rfl)).2.2 2 6 rfl⟩

/-- The invariant relating the stored and original boundary values of a
DirichletBC: when homogenized the stored value is the zero constant,
otherwise it is the recorded original. It is established by __init__ and
preserved by set_value, homogenize, restore, apply and zero — but not by
the bare function_arg property setter, which updates the stored value
without touching the original. -/
def BCInv (bc : DirichletBC) : Prop :=
  (bc.currently_zeroed = true → bc.function_arg = Gval.const 0) ∧
  (bc.currently_zeroed = false → bc.function_arg = bc.original_arg)

instance (bc : DirichletBC) : Decidable (BCInv bc) := by
  unfold BCInv
  infer_instance

/-- The bc constructed with constant 1 in wTest. -/
def bcRaw0 : DirichletBC :=
  ⟨0, Gval.const 1, Gval.const 1, SubDom.bottom, false⟩

/-- bcRaw0 after assigning the constant 2 through the bare function_arg
property setter (which does not update the original argument). -/
def bcRaw1 : DirichletBC :=
  ⟨0, Gval.const 2, Gval.const 1, SubDom.bottom, false⟩

/-- A compatible two-node Function on space 0 of wTest. -/
def rRaw : PyFunction := ⟨0, [[0, 0]]⟩

/-- Claim C9 (counterexample): on a DirichletBC whose value was changed
through the bare function_arg property setter after construction, zero
does not leave the bc state unchanged: the restore inside zero reverts
function_arg to the value recorded at construction (constant 1), not to
the value held before the call (constant 2). -/
theorem zero_after_setter_changes_state :
    mkBC wTest 0 (Gval.const 1) SubDom.bottom = Except.ok bcRaw0 ∧
    setFA wTest bcRaw0 (Gval.const 2) = (none, bcRaw1) ∧
    rRaw.space = bcRaw1.function_space ∧
    bcRaw1.function_arg = Gval.const 2 ∧
    (zeroBC wTest bcRaw1 rRaw).2.1.function_arg = Gval.const 1 := by
  exact ⟨rfl, rfl, rfl, rfl, by decide⟩

/-- Claim C9 (amended): for every DirichletBC satisfying the
construction invariant (stored value = original when not homogenized,
zero when homogenized) and every Function on a compatible space, zero
raises nothing and leaves function_arg and the homogenized flag of the
bc exactly as they were before the call. -/
theorem zero_preserves_bc_state (w : World) (bc : DirichletBC)
    (r : PyFunction) (hInv : BCInv bc)
    (hc : bc.function_space = r.space ∨
          (w.sp bc.function_space).parent = some r.space) :
    (zeroBC w bc r).1 = none ∧
    (zeroBC w bc r).2.1.function_arg = bc.function_arg ∧
    (zeroBC w bc r).2.1.currently_zeroed = bc.currently_zeroed := by
  have h1 : homogenize w bc =
      (none, { bc with function_arg := Gval.const 0,
                       currently_zeroed := true }) := by
    simp [homogenize, setArg]
  have hap1 : (applyBC w
      { bc with function_arg := Gval.const 0, currently_zeroed := true }
      r none).1 = none := by
    simp only [applyBC]
    rw [if_pos]
    · exact hc
  rcases hap : applyBC w
      { bc with function_arg := Gval.const 0, currently_zeroed := true }
      r none with ⟨e, r1⟩
  rw [hap] at hap1
  simp only at hap1
  subst hap1
  by_cases hz : bc.currently_zeroed
  · have hfa := hInv.1 hz
    simp [zeroBC, h1, hap, hz, hfa]
  · have hfa := hInv.2 (by simpa using hz)
    simp [zeroBC, h1, hap, hz, restore, hfa]

/-- Claim C9 (witness): zero preserves the state of the freshly
constructed bcRaw0 acting on a compatible Function. -/
theorem zero_preserves_bc_state_witness :
    (zeroBC wTest bcRaw0 rRaw).1 = none ∧
    (zeroBC wTest bcRaw0 rRaw).2.1.function_arg = bcRaw0.function_arg ∧
    (zeroBC wTest bcRaw0 rRaw).2.1.currently_zeroed =
      bcRaw0.currently_zeroed :=
  zero_preserves_bc_state wTest bcRaw0 rRaw (by decide) (Or.inl rfl)

theorem loadChars_params (p : Params) : ∀ cs, (loadChars p cs).params = p := by
  intro cs
  induction cs with
  | nil => rfl
  | cons c rest ih =>
    simp only [loadChars]
    split
    · rfl
    · simpa using ih

theorem loadElems_params (p : Params) : ∀ xs, (loadElems p xs).params = p := by
  intro xs
  induction xs with
  | nil => rfl
  | cons x rest ih =>
    cases x <;> simp only [loadElems]
    case str s uni =>
      split
      · rfl
      · simpa using ih

theorem eraseL_setKey (p : Params) (k : String) (v w2 : PVal)
    (hget : getKey p k = some w2) (hv : eraseV v = eraseV w2) :
    eraseL (setKey p k v) = eraseL p := by
  induction p with
  | nil => cases hget
  | cons kv rest ih =>
    obtain ⟨k0, v0⟩ := kv
    simp only [getKey] at hget
    simp only [setKey]
    by_cases hk : k0 = k
    · rw [if_pos hk] at hget ⊢
      have hv0 : v0 = w2 := by simpa using hget
      subst hv0
      simp [eraseL, hv]
    · rw [if_neg hk] at hget ⊢
      simp [eraseL, ih hget]

theorem eraseV_jToP (v : JVal) : eraseV (jToP v) = PVal.num 0 := by
  cases v with
  | str s uni => cases uni <;> rfl
  | num n => rfl
  | bool b => rfl
  | obj kvs => rfl
  | arr xs => rfl
  | null => rfl

mutual

theorem loadVal_skeleton (p : Params) (j : JVal) :
    eraseL (loadVal p j).params = eraseL p := by
  cases j with
  | obj kvs => simp only [loadVal]; exact loadPairs_skeleton p kvs
  | str s uni =>
    simp only [loadVal]
    exact congrArg eraseL (loadChars_params p s.data)
  | arr xs =>
    simp only [loadVal]
    exact congrArg eraseL (loadElems_params p xs)
  | num n => rfl
  | bool b => rfl
  | null => rfl

theorem loadPairs_skeleton (p : Params) (l : List (String × JVal)) :
    eraseL (loadPairs p l).params = eraseL p := by
  cases l with
  | nil => rfl
  | cons kv rest =>
    obtain ⟨k, v⟩ := kv
    cases hget : getKey p k with
    | none =>
      simp only [loadPairs, hget]
      exact loadPairs_skeleton p rest
    | some w2 =>
      cases w2 with
      | sub skvs =>
        simp only [loadPairs, hget]
        have h1 : eraseL (loadVal skvs v).params = eraseL skvs :=
          loadVal_skeleton skvs v
        have h2 : eraseL (setKey p k (PVal.sub (loadVal skvs v).params)) =
            eraseL p :=
          eraseL_setKey p k _ _ hget (by simp [eraseV, h1])
        cases herr : (loadVal skvs v).err with
        | some e => simpa using h2
        | none =>
          simp only [herr]
          rw [loadPairs_skeleton
            (setKey p k (PVal.sub (loadVal skvs v).params)) rest]
          exact h2
      | num n2 =>
        simp only [loadPairs, hget]
        rw [loadPairs_skeleton (setKey p k (jToP v)) rest]
        exact eraseL_setKey p k _ _ hget (eraseV_jToP v)
      | bool b2 =>
        simp only [loadPairs, hget]
        rw [loadPairs_skeleton (setKey p k (jToP v)) rest]
        exact eraseL_setKey p k _ _ hget (eraseV_jToP v)
      | str s2 =>
        simp only [loadPairs, hget]
        rw [loadPairs_skeleton (setKey p k (jToP v)) rest]
        exact eraseL_setKey p k _ _ hget (eraseV_jToP v)
      | raw j2 =>
        simp only [loadPairs, hget]
        rw [loadPairs_skeleton (setKey p k (jToP v)) rest]
        exact eraseL_setKey p k _ _ hget (eraseV_jToP v)

end

/-- Claim C10: load_from_dict never adds a key to the parameters: for
every dictionary argument the key skeleton of the parameters — the keys
at the top level and, recursively, inside every nested Parameters — is
the same before and after the call, whether or not the call raises. -/
theorem load_from_dict_preserves_keys (p : Params) (d : JVal) :
    eraseL (loadVal p d).params = eraseL p :=
  loadVal_skeleton p d

theorem getKey_setKey_self (p : Params) (k : String) (v : PVal)
    (h : getKey p k = some v) : setKey p k v = p := by
  induction p with
  | nil => cases h
  | cons kv rest ih =>
    obtain ⟨k0, v0⟩ := kv
    simp only [getKey] at h
    simp only [setKey]
    by_cases hk : k0 = k
    · rw [if_pos hk] at h ⊢
      have hv0 : v0 = v := by simpa using h
      rw [hv0]
    · rw [if_neg hk] at h ⊢
      rw [ih h]

theorem encodeAscii_of_ascii (s : String) (h : asciiStr s = true) :
    encodeAscii s = s := by
  unfold encodeAscii
  unfold asciiStr at h
  rw [List.filter_eq_self.mpr (List.all_eq_true.mp h)]

theorem goodL_cons (k : String) (v : PVal) (rest : Params)
    (h : goodL ((k, v) :: rest) = true) :
    asciiStr k = true ∧ goodV v = true ∧ getKey rest k = none ∧
      goodL rest = true := by
  simp only [goodL, Bool.and_eq_true, Option.isNone_iff_eq_none] at h
  exact ⟨h.1.1.1, h.1.1.2, h.1.2, h.2⟩

theorem loadPairs_dumps_self (kvs : Params) : ∀ (p : Params),
    goodL kvs = true →
    (∀ k2 v2, getKey kvs k2 = some v2 → getKey p k2 = some v2) →
    loadPairs p (markUniL (dumpsL kvs)) = ⟨p, [], none⟩ := by
  intro p hg hag
  cases hkvs : kvs with
  | nil => simp [dumpsL, markUniL, loadPairs]
  | cons kv rest =>
    obtain ⟨k, v⟩ := kv
    rw [hkvs] at hg hag
    obtain ⟨hka, hgv, hnone, hgrest⟩ := goodL_cons k v rest hg
    have hk : getKey p k = some v := by
      apply hag
      simp [getKey]
    have hagrest : ∀ k2 v2, getKey rest k2 = some v2 →
        getKey p k2 = some v2 := by
      intro k2 v2 h2
      apply hag
      simp only [getKey]
      rw [if_neg]
      · exact h2
      · intro hkk
        rw [hkk, h2] at hnone
        cases hnone
    have hrest := loadPairs_dumps_self rest p hgrest hagrest
    cases v with
    | num n =>
      simp only [dumpsL, markUniL, markUni, dumpsV, loadPairs, hk, jToP,
        getKey_setKey_self p k (PVal.num n) hk, hrest]
    | bool b =>
      simp only [dumpsL, markUniL, markUni, dumpsV, loadPairs, hk, jToP,
        getKey_setKey_self p k (PVal.bool b) hk, hrest]
    | str s =>
      have he : encodeAscii s = s := encodeAscii_of_ascii s (by simpa [goodV] using hgv)
      simp only [dumpsL, markUniL, markUni, dumpsV, loadPairs, hk, jToP, he,
        getKey_setKey_self p k (PVal.str s) hk, hrest]
    | sub skvs =>
      have hsub := loadPairs_dumps_self skvs skvs (by simpa [goodV] using hgv)
        (fun _ _ h => h)
      simp only [dumpsL, markUniL, markUni, dumpsV, loadPairs, hk, loadVal,
        hsub, getKey_setKey_self p k (PVal.sub skvs) hk, hrest]
      simp
    | raw j => simp [goodV] at hgv
termination_by sizeOf kvs
decreasing_by
  all_goals (simp_wf; subst hkvs; try simp; try omega)

/-- Claim C7: for a Parameters object whose values are numbers,
booleans, ASCII strings and nested Parameters (with duplicate-free ASCII
keys), exporting to JSON and importing the result restores every
parameter to its previous value, warns about nothing, raises nothing,
and import returns the parameters object itself. -/
theorem params_json_roundtrip (p : Params) (h : goodL p = true) :
    import_params_from_json p (export_params_to_json p) = ⟨p, [], none⟩ := by
  have h1 : markUni (export_params_to_json p) =
      JVal.obj (markUniL (dumpsL p)) := by
    simp [export_params_to_json, markUni]
  simp only [import_params_from_json, h1, loadVal]
  exact loadPairs_dumps_self p p h (fun _ _ hk => hk)

/-- A concrete nested Parameters object with ASCII keys and values. -/
def pW : Params :=
  [("a", PVal.num 1), ("b", PVal.sub [("c", PVal.str "x")]),
   ("d", PVal.bool true)]

/-- Claim C7 (witness): the JSON round trip restores the concrete
nested parameters pW. -/
theorem params_json_roundtrip_witness :
    import_params_from_json pW (export_params_to_json pW) =
      ⟨pW, [], none⟩ :=
  params_json_roundtrip pW (by
    simp [pW, goodL, goodV, getKey, asciiStr])

end Firedrake
